import Mathlib

/-!
A verification development for the parsec editor sources.

The buffer of a `Text` is modelled as a `List` of abstract elements standing for
bytes; all offsets are positions in that list.  Functions are translated from
the Rust sources (`src/duat-core`, `src/parsec-core`, `src/parsec-term`); a
few auxiliary structures whose defining module is not part of the source tree
(`history::Change`, the `cursors` module, the cassowary solver crate) are
modelled from the specification and are marked as such in their doc comments.
-/

namespace Parsec

/-- Modelled from the spec: `history::Change` (§3.5).  `src/duat-core/src/lib.rs`
declares `pub mod history`, but the module's file is absent from the sources,
so the struct and its derived offsets follow the specification's words:
`taken_end = start + len(taken_text)`, `added_end = start + len(added_text)`. -/
structure Change (α : Type) where
  start : Nat
  taken_text : List α
  added_text : List α

/-- `Change::taken_end`. -/
def Change.taken_end (c : Change α) : Nat := c.start + c.taken_text.length

/-- `Change::added_end`. -/
def Change.added_end (c : Change α) : Nat := c.start + c.added_text.length

/-- `GapBuffer::splice(range, bytes)` of the `gapbuf` crate as used by
`Text::replace_range`: remove the byte range, then write the new bytes at its
start. -/
def splice (l : List α) (s e : Nat) (new : List α) : List α :=
  l.take s ++ new ++ l.drop e

/-- `Text::replace_range` (src/duat-core/src/text/mod.rs): first
`buf.splice(old, [])`, then `buf.splice(start..start, edit)` with
`start = old.start`.  The tag transformation does not touch the buffer and the
claim under study is about buffer bytes only, so it is not part of this
function. -/
def replace_range (l : List α) (s e : Nat) (edit : List α) : List α :=
  splice (splice l s e []) s s edit

/-- `Text::apply_change` (src/duat-core/src/text/mod.rs): replace
`start..taken_end` with the added text. -/
def apply_change (l : List α) (c : Change α) : List α :=
  replace_range l c.start c.taken_end c.added_text

/-- `usize::saturating_add_signed`; saturation at `usize::MAX` is irrelevant at
the modelled sizes and is not represented. -/
def natSatAddSigned (n : Nat) (i : Int) : Nat := ((n : Int) + i).toNat

/-- `Text::undo_change` (src/duat-core/src/text/mod.rs): replace
`start+chars .. added_end+chars` with the taken text. -/
def undo_change (l : List α) (c : Change α) (chars : Int) : List α :=
  replace_range l (natSatAddSigned c.start chars) (natSatAddSigned c.added_end chars)
    c.taken_text

theorem replace_range_eq (l : List α) (s e : Nat) (edit : List α) (hs : s ≤ l.length) :
    replace_range l s e edit = l.take s ++ edit ++ l.drop e := by
  have hlen : (l.take s).length = s := by
    simp only [List.length_take]
    omega
  unfold replace_range splice
  rw [List.append_nil, List.take_left' hlen, List.drop_left' hlen]

theorem apply_change_eq (t : List α) (c : Change α) (hend : c.taken_end ≤ t.length) :
    apply_change t c = t.take c.start ++ c.added_text ++ t.drop c.taken_end := by
  unfold apply_change
  rw [replace_range_eq]
  have : c.start ≤ c.taken_end := Nat.le_add_right _ _
  omega

theorem text_undo_apply (t : List α) (c : Change α)
    (hend : c.taken_end ≤ t.length)
    (htaken : c.taken_text = (t.drop c.start).take c.taken_text.length) :
    undo_change (apply_change t c) c 0 = t := by
  have hse : c.start + c.taken_text.length ≤ t.length := hend
  have hA := apply_change_eq t c hend
  have hlen_take : (t.take c.start).length = c.start := by
    simp only [List.length_take]
    omega
  have hA_take : (apply_change t c).take c.start = t.take c.start := by
    rw [hA, List.append_assoc, List.take_left' hlen_take]
  have hlen_mid : (t.take c.start ++ c.added_text).length = c.start + c.added_text.length := by
    simp only [List.length_append, hlen_take]
  have hA_drop :
      (apply_change t c).drop (c.start + c.added_text.length) = t.drop c.taken_end := by
    rw [hA, List.drop_left' hlen_mid]
  have hA_len : c.start ≤ (apply_change t c).length := by
    rw [hA]
    simp only [List.length_append, hlen_take]
    omega
  unfold undo_change
  have h0a : natSatAddSigned c.start 0 = c.start := by
    simp [natSatAddSigned]
  have h0b : natSatAddSigned c.added_end 0 = c.start + c.added_text.length := by
    simp only [natSatAddSigned, Change.added_end, Int.add_zero]
    omega
  rw [h0a, h0b, replace_range_eq _ _ _ _ hA_len, hA_take, hA_drop]
  conv_rhs => rw [← List.take_append_drop c.start t]
  rw [List.append_assoc]
  congr 1
  have hdd : t.drop c.taken_end = (t.drop c.start).drop c.taken_text.length := by
    rw [List.drop_drop]
    unfold Change.taken_end
    rw [Nat.add_comm]
  rw [htaken, hdd]
  exact List.take_append_drop _ _

/-- C1: applying a `Change` replaces `start..taken_end` with the added text, and
undoing it with shift 0 replaces `start..added_end` with the taken text; for
every buffer and every change valid on it (the taken text equals the bytes it
covers and lies inside the buffer), undo after apply restores the original
buffer byte for byte, and re-applying after the undo restores the post-change
buffer. -/
theorem c1_apply_undo_involution (t : List α) (c : Change α)
    (hend : c.taken_end ≤ t.length)
    (htaken : c.taken_text = (t.drop c.start).take c.taken_text.length) :
    undo_change (apply_change t c) c 0 = t ∧
      apply_change (undo_change (apply_change t c) c 0) c = apply_change t c := by
  have h := text_undo_apply t c hend htaken
  exact ⟨h, by rw [h]⟩

/-- Witness for C1 at the buffer `"abcdef"` with the change replacing `"cd"`
(bytes 2..4) by `"XYZ"`. -/
theorem c1_apply_undo_involution_witness :
    undo_change (apply_change "abcdef".toList ⟨2, "cd".toList, "XYZ".toList⟩)
        ⟨2, "cd".toList, "XYZ".toList⟩ 0 = "abcdef".toList ∧
      apply_change
          (undo_change (apply_change "abcdef".toList ⟨2, "cd".toList, "XYZ".toList⟩)
            ⟨2, "cd".toList, "XYZ".toList⟩ 0)
          ⟨2, "cd".toList, "XYZ".toList⟩ =
        apply_change "abcdef".toList ⟨2, "cd".toList, "XYZ".toList⟩ :=
  c1_apply_undo_involution "abcdef".toList ⟨2, "cd".toList, "XYZ".toList⟩ (by decide)
    (by decide)

/-! ### New-line glyph policy (claim C7) -/

/-- `NewLine` (src/parsec-core/src/text/mod.rs). -/
inductive NewLine where
  | Blank
  | AlwaysAs (c : Char)
  | AfterSpaceAs (c : Char)
deriving DecidableEq

/-- `real_char_from` (src/parsec-term/src/label.rs): the glyph printed for a
character under the new-line policy, given the previously rendered character. -/
def real_char_from (ch : Char) (new_line : NewLine) (lastChar : Char) : Char :=
  if ch = '\n' then
    match new_line with
    | .Blank => ' '
    | .AlwaysAs c => c
    | .AfterSpaceAs c => if lastChar = ' ' then c else ' '
  else ch

/-- `NewLine::new_line_char` (src/parsec-core/src/text/mod.rs): the older core's
glyph choice, which tests `last_ch.is_whitespace()` instead of `== ' '`. -/
def new_line_char (nl : NewLine) (last_ch : Char) : Char :=
  match nl with
  | .Blank => ' '
  | .AlwaysAs c => c
  | .AfterSpaceAs c => if last_ch.isWhitespace then c else ' '

/-- The two generations disagree after a tab: the renderer's `real_char_from`
prints a space, while `new_line_char` would print the policy glyph. -/
theorem new_line_char_tab_disagrees :
    new_line_char (NewLine.AfterSpaceAs '$') '\t' = '$' ∧
      real_char_from '\n' (NewLine.AfterSpaceAs '$') '\t' = ' ' := by
  constructor
  · decide
  · decide

/-- C7 counterexample: with policy `AfterSpaceAs('$')` and preceding rendered
character `'\t'` (whitespace, but not the space character), the renderer
produces `' '`, not `'$'` as the claim requires. -/
theorem c7_counterexample :
    real_char_from '\n' (NewLine.AfterSpaceAs '$') '\t' ≠ '$' ∧
      Char.isWhitespace '\t' = true := by
  constructor
  · decide
  · decide

/-- C7 (amended): under `AfterSpaceAs(c)` the renderer's `real_char_from`
renders `'\n'` as `c` if and only if the immediately preceding rendered
character was exactly the space character `' '` (not arbitrary whitespace),
and as a space otherwise; every character other than `'\n'` is rendered
unchanged. -/
theorem c7_after_space_renders_on_space (c lastChar ch : Char) (nl : NewLine) :
    (real_char_from '\n' (NewLine.AfterSpaceAs c) lastChar =
        if lastChar = ' ' then c else ' ') ∧
      (ch ≠ '\n' → real_char_from ch nl lastChar = ch) := by
  constructor
  · simp [real_char_from]
  · intro h
    simp [real_char_from, h]

/-- Witness for C7 at the policy glyph `'$'`, previous character `'\t'` and the
ordinary character `'x'`. -/
theorem c7_after_space_renders_on_space_witness :
    real_char_from '\n' (NewLine.AfterSpaceAs '$') '\t' = ' ' ∧
      real_char_from 'x' NewLine.Blank '\t' = 'x' := by
  have h := c7_after_space_renders_on_space '$' '\t' 'x' NewLine.Blank
  refine ⟨?_, h.2 (by decide)⟩
  have h1 := h.1
  simpa using h1

/-! ### Cursor tags (claim C10) -/

/-- `FormId` values for the `"MainSel"` and `"ExtraSel"` palette forms.
Modelled from the spec: the palette (§3.7) is a registry assigning distinct
ids to distinct names; its module is not part of the sources. -/
def MAIN_SEL : Nat := 0

/-- The `"ExtraSel"` form id; see `MAIN_SEL`. -/
def EXTRA_SEL : Nat := 1

/-- `Tag` (src/duat-core/src/text/tags): the constructors involved in
cursor-tag synchronization.  Constructors that `add_cursor_tags` never
produces (ghost text, alignment, conceal, toggles) are omitted. -/
inductive Tag where
  | PushForm (id : Nat)
  | PopForm (id : Nat)
  | MainCursor
  | ExtraCursor
deriving DecidableEq

/-- `Cursor` caret and anchor, in character positions.  Modelled from the spec
(§3.6): the `cursors` module of `src/duat-core/src/input/helper` is absent
from the sources; `range()` follows `Cursor::range` of
src/parsec-core/src/position.rs (the ordered caret/anchor pair). -/
structure Cursor where
  caret : Nat
  anchor : Option Nat
deriving DecidableEq

/-- `Cursor::range`: the ordered selection range. -/
def Cursor.range (c : Cursor) : Nat × Nat :=
  let a := c.anchor.getD c.caret
  if a < c.caret then (a, c.caret) else (c.caret, a)

/-- `cursor_tags` (src/duat-core/src/text/mod.rs): the caret, selection-start
and selection-end tags for a cursor; the caret tag is `MainCursor` in both
branches. -/
def cursor_tags (is_main : Bool) : Tag × Tag × Tag :=
  if is_main then
    (Tag.MainCursor, Tag.PushForm MAIN_SEL, Tag.PopForm MAIN_SEL)
  else
    (Tag.MainCursor, Tag.PushForm EXTRA_SEL, Tag.PopForm EXTRA_SEL)

/-- The `tags.insert` calls made for one cursor by `Text::add_cursor_tags`
(src/duat-core/src/text/mod.rs): the position/tag list, skipping the selection
tags when the selection is empty. -/
def cursorInserts (cursor : Cursor) (is_main : Bool) : List (Nat × Tag) :=
  let r := cursor.range
  let ts := cursor_tags is_main
  let pos_list := [(r.1, ts.2.1), (r.2, ts.2.2), (cursor.caret, ts.1)]
  let no_selection := if r.1 = r.2 then 2 else 0
  pos_list.drop no_selection

/-- `Text::add_cursor_tags` over a cursor list (each with its `is_main` flag):
the sequence of inserted `(position, tag)` pairs. -/
def add_cursor_tags (cursors : List (Cursor × Bool)) : List (Nat × Tag) :=
  cursors.flatMap fun cm => cursorInserts cm.1 cm.2

theorem cursorInserts_not_extra (c : Cursor) (m : Bool) :
    ∀ p ∈ cursorInserts c m, p.2 ≠ Tag.ExtraCursor := by
  intro p hp
  unfold cursorInserts cursor_tags at hp
  rcases m with _ | _ <;> by_cases h : (Cursor.range c).1 = (Cursor.range c).2 <;>
    simp [h] at hp <;> rcases hp with hp | hp | hp <;> simp_all

theorem cursorInserts_caret (c : Cursor) (m : Bool) :
    (c.caret, Tag.MainCursor) ∈ cursorInserts c m := by
  unfold cursorInserts cursor_tags
  rcases m with _ | _ <;> by_cases h : (Cursor.range c).1 = (Cursor.range c).2 <;> simp [h]

theorem cursorInserts_extra_sel (c : Cursor) (h : c.range.1 ≠ c.range.2) :
    (c.range.1, Tag.PushForm EXTRA_SEL) ∈ cursorInserts c false ∧
      (c.range.2, Tag.PopForm EXTRA_SEL) ∈ cursorInserts c false := by
  unfold cursorInserts cursor_tags
  simp [h]

/-- C10: cursor-tag synchronization installs `Tag::MainCursor` as the caret tag
of every cursor, main or not; a non-main cursor is distinguished only by the
`EXTRA_SEL` push/pop form tags around its selection, and no `ExtraCursor` tag
is ever inserted. -/
theorem c10_caret_tag_always_main (cursors : List (Cursor × Bool)) :
    (∀ p ∈ add_cursor_tags cursors, p.2 ≠ Tag.ExtraCursor) ∧
      (∀ c m, (c, m) ∈ cursors → (c.caret, Tag.MainCursor) ∈ add_cursor_tags cursors) ∧
      (∀ c, (c, false) ∈ cursors → c.range.1 ≠ c.range.2 →
        (c.range.1, Tag.PushForm EXTRA_SEL) ∈ add_cursor_tags cursors ∧
          (c.range.2, Tag.PopForm EXTRA_SEL) ∈ add_cursor_tags cursors) := by
  refine ⟨?_, ?_, ?_⟩
  · intro p hp
    rw [add_cursor_tags, List.mem_flatMap] at hp
    obtain ⟨cm, _, hin⟩ := hp
    exact cursorInserts_not_extra cm.1 cm.2 p hin
  · intro c m hmem
    rw [add_cursor_tags, List.mem_flatMap]
    exact ⟨(c, m), hmem, cursorInserts_caret c m⟩
  · intro c hmem hsel
    have h := cursorInserts_extra_sel c hsel
    constructor
    · rw [add_cursor_tags, List.mem_flatMap]
      exact ⟨(c, false), hmem, h.1⟩
    · rw [add_cursor_tags, List.mem_flatMap]
      exact ⟨(c, false), hmem, h.2⟩

/-- Witness for C10 on two cursors: a main cursor with selection 2..5 and a
non-main cursor with selection 7..9. -/
theorem c10_caret_tag_always_main_witness :
    ((9, Tag.MainCursor) ∈
        add_cursor_tags [(⟨5, some 2⟩, true), (⟨9, some 7⟩, false)]) ∧
      ((7, Tag.PushForm EXTRA_SEL) ∈
        add_cursor_tags [(⟨5, some 2⟩, true), (⟨9, some 7⟩, false)]) ∧
      ((9, Tag.PopForm EXTRA_SEL) ∈
        add_cursor_tags [(⟨5, some 2⟩, true), (⟨9, some 7⟩, false)]) := by
  have h := c10_caret_tag_always_main [(⟨5, some 2⟩, true), (⟨9, some 7⟩, false)]
  have hc := h.2.1 ⟨9, some 7⟩ false (by simp)
  have he := h.2.2 ⟨9, some 7⟩ (by simp) (by decide)
  have he1 := he.1
  have he2 := he.2
  refine ⟨hc, ?_, ?_⟩
  · have : (⟨9, some 7⟩ : Cursor).range.1 = 7 := by decide
    rwa [this] at he1
  · have : (⟨9, some 7⟩ : Cursor).range.2 = 9 := by decide
    rwa [this] at he2

/-! ### Absolute cursor movement over a rope (claim C9)

`Cursor::move_to` of src/parsec-core/src/position.rs runs over a `ropey::Rope`;
the rope is modelled as a list of characters with the `ropey` index semantics,
and each fallible rope lookup returns `none` exactly where `ropey` documents a
panic.  A `none` result of `move_to` therefore models a panic of the source. -/

namespace Position

/-- `Rope::len_lines`: one more than the number of newline characters. -/
def lenLines (l : List Char) : Nat := l.count '\n' + 1

/-- The character offsets at which each line starts (one entry per line). -/
def lineStarts (l : List Char) : List Nat :=
  0 :: (l.enum.filterMap fun p => if p.2 = '\n' then some (p.1 + 1) else none)

/-- `Rope::line_to_char(i)`: panics (`none`) when `i > len_lines`;
`line_to_char(len_lines)` is the total character count. -/
def lineToChar (l : List Char) (i : Nat) : Option Nat :=
  if i < lenLines l then some ((lineStarts l).getD i 0)
  else if i = lenLines l then some l.length
  else none

/-- `Rope::line(i)`: the `i`-th line including its trailing newline; panics
(`none`) when `i ≥ len_lines`. -/
def line (l : List Char) (i : Nat) : Option (List Char) :=
  if i < lenLines l then
    let s := (lineStarts l).getD i 0
    let e := if i + 1 < lenLines l then (lineStarts l).getD (i + 1) 0 else l.length
    some ((l.drop s).take (e - s))
  else none

/-- `Rope::char_to_byte(c)`: panics (`none`) when `c > len_chars`. -/
def charToByte (l : List Char) (c : Nat) : Option Nat :=
  if c ≤ l.length then some (((l.take c).map Char.utf8Size).sum) else none

/-- `Rope::slice(a..b)`: panics (`none`) when `a > b` or `b > len_chars`. -/
def slice (l : List Char) (a b : Nat) : Option (List Char) :=
  if a ≤ b ∧ b ≤ l.length then some ((l.drop a).take (b - a)) else none

/-- `Pos` (src/parsec-core/src/position.rs). -/
structure Pos where
  byte : Nat
  ch : Nat
  col : Nat
  row : Nat
deriving DecidableEq

/-- `Cursor` (src/parsec-core/src/position.rs); `assoc_index` is irrelevant to
movement and omitted. -/
structure Cursor where
  caret : Pos
  anchor : Option Pos
  desired_x : Nat
deriving DecidableEq

/-- `Cursor::move_to` (src/parsec-core/src/position.rs), statement for
statement: `cur.row = min(pos.row, rope.len_lines())`, then
`line_ch = rope.line_to_char(pos.row)`, then
`cur.col = min(pos.col, rope.line(cur.row).len_chars())`, then the caret
indices and `desired_x = label.get_width(rope.slice(line_ch..cur.ch), ..)`,
with the external label width function abstracted as `w`; finally the anchor
is cleared.  Each rope lookup that `ropey` documents as panicking is a `none`
of the whole function. -/
def move_to (w : List Char → Nat) (cursor : Cursor) (pos : Pos) (rope : List Char) :
    Option Cursor :=
  let row := min pos.row (lenLines rope)
  match lineToChar rope pos.row with
  | none => none
  | some line_ch =>
    match line rope row with
    | none => none
    | some lineChars =>
      let col := min pos.col lineChars.length
      match lineToChar rope row with
      | none => none
      | some rowStart =>
        let ch := rowStart + col
        match charToByte rope ch with
        | none => none
        | some byte =>
          match slice rope line_ch ch with
          | none => none
          | some sl =>
            some { cursor with
                    caret := ⟨byte, ch, col, row⟩
                    desired_x := w sl
                    anchor := none }

/-- Sanity check: on an in-range target the movement succeeds and clamps the
column to the line length. -/
theorem move_to_in_range :
    move_to List.length ⟨⟨0, 0, 0, 0⟩, none, 0⟩ ⟨0, 0, 10, 0⟩ "abc".toList =
      some ⟨⟨3, 3, 3, 0⟩, none, 3⟩ := by decide

end Position

/-- C9: `Cursor::move_to` with a row one past the end of the buffer `"abc"`
(`len_lines = 1`, requested `row = 1`) panics inside `rope.line(min(row,
len_lines))` instead of clamping: the clamp uses `len_lines` where the largest
valid line index is `len_lines - 1`.  The `none` result is the modelled
panic; the claim (and the function's own doc comment) requires the caret to be
clamped to the maximum valid position without panicking. -/
theorem c9_move_to_panics_on_row_past_end :
    Position.move_to List.length ⟨⟨0, 0, 0, 0⟩, none, 0⟩ ⟨3, 3, 0, 1⟩ "abc".toList =
      none := by decide

/-! ### `Editor::replace` of the edit helper (claim C2) -/

/-- `Change::new(edit, range, text)`.  Modelled from the spec: `history.rs` is
absent from the sources; per §3.5 the taken text is the byte range the change
covers and the added text is the edit. -/
def Change.new (edit : List α) (r : Nat × Nat) (text : List α) : Change α :=
  ⟨r.1, (text.drop r.1).take (r.2 - r.1), edit⟩

/-- `Cursor::swap_ends`: swap caret and anchor when an anchor exists
(src/parsec-core/src/position.rs `switch_ends`; the duat generation's cursor
module is absent and behaves the same per the spec, §4.6). -/
def swap_ends (c : Cursor) : Cursor :=
  match c.anchor with
  | some a => ⟨a, some c.caret⟩
  | none => c

/-- `Cursor::unset_anchor`. -/
def unset_anchor (c : Cursor) : Cursor := ⟨c.caret, none⟩

/-- `Cursor::move_to(point, ..)` of the duat cursor.  Modelled from the spec
(§4.6, the cursors module is absent): the caret moves to the given position,
clamped to the maximum valid one; the anchor is untouched. -/
def Cursor.move_to (c : Cursor) (p : Nat) (len : Nat) : Cursor :=
  ⟨min p len, c.anchor⟩

/-- `Cursor::move_hor(count, ..)` of the duat cursor.  Modelled from the spec
(§4.6): a signed character displacement, clamped to the buffer. -/
def Cursor.move_hor (c : Cursor) (count : Int) (len : Nat) : Cursor :=
  ⟨min (((c.caret : Int) + count).toNat) len, c.anchor⟩

/-- `Editor::replace` (src/duat-core/src/input/helper/mod.rs): build a `Change`
from the cursor's selection, apply it, then either keep the caret on the
selection start and move the anchor to `added_end` (anchor at or after the
caret, nonempty edit) or clear the anchor and move the caret to `added_end`. -/
def Editor.replace (cursor : Cursor) (text : List α) (edit : List α) :
    Cursor × List α :=
  let change := Change.new edit cursor.range text
  let edit_len := change.added_text.length
  let e := change.added_end
  let text' := apply_change text change
  let cursor' :=
    match cursor.anchor with
    | some anchor =>
      if cursor.caret ≤ anchor ∧ 0 < edit_len then
        swap_ends ((swap_ends cursor).move_to e text'.length)
      else
        (unset_anchor cursor).move_to e text'.length
    | none => (unset_anchor cursor).move_to e text'.length
  (cursor', text')

/-- C2 counterexample: buffer `"abc"`, caret at 0, anchor at 2 (anchor at the
selection's end), edit `"X"`.  The code leaves the caret at the selection
start 0 and moves the anchor to `added_end = 1`; the claim requires the caret
at 1 and the anchor at 0. -/
theorem c2_counterexample :
    (Editor.replace (⟨0, some 2⟩ : Cursor) "abc".toList "X".toList).1 = ⟨0, some 1⟩ ∧
      (Editor.replace (⟨0, some 2⟩ : Cursor) "abc".toList "X".toList).1 ≠
        ⟨1, some 0⟩ := by
  constructor
  · decide
  · decide

theorem Cursor.range_min_max (caret a : Nat) :
    Cursor.range ⟨caret, some a⟩ = (min caret a, max caret a) := by
  unfold Cursor.range
  simp only [Option.getD_some]
  by_cases h : a < caret
  · simp only [if_pos h, Prod.mk.injEq]
    omega
  · simp only [if_neg h, Prod.mk.injEq]
    omega

/-- C2 (amended): for a cursor with a selection, `replace(edit)` produces a
`Change` whose taken text is the selection and whose added text is the edit
and applies it; if the anchor was at the selection's end and the edit is
nonempty, the caret stays at the selection's start and the anchor moves to
`added_end`; otherwise the anchor is cleared and the caret moves to
`added_end`. -/
theorem c2_replace_keeps_caret_on_start (text edit : List α) (caret a : Nat)
    (hval : max caret a ≤ text.length) :
    (Change.new edit (Cursor.range ⟨caret, some a⟩) text).taken_text =
        (text.drop (min caret a)).take (max caret a - min caret a) ∧
      (Change.new edit (Cursor.range ⟨caret, some a⟩) text).added_text = edit ∧
      (Editor.replace (⟨caret, some a⟩ : Cursor) text edit).2 =
        text.take (min caret a) ++ edit ++ text.drop (max caret a) ∧
      (caret ≤ a → edit ≠ [] →
        (Editor.replace (⟨caret, some a⟩ : Cursor) text edit).1 =
          ⟨caret, some (caret + edit.length)⟩) ∧
      (a < caret →
        (Editor.replace (⟨caret, some a⟩ : Cursor) text edit).1 =
          ⟨a + edit.length, none⟩) ∧
      (caret ≤ a → edit = [] →
        (Editor.replace (⟨caret, some a⟩ : Cursor) text edit).1 = ⟨caret, none⟩) := by
  have hr := Cursor.range_min_max caret a
  have htklen :
      ((text.drop (min caret a)).take (max caret a - min caret a)).length =
        max caret a - min caret a := by
    simp only [List.length_take, List.length_drop]
    omega
  have htext0 :
      apply_change text (Change.new edit (Cursor.range ⟨caret, some a⟩) text) =
        text.take (min caret a) ++ edit ++ text.drop (max caret a) := by
    rw [hr]
    unfold Change.new
    rw [apply_change_eq]
    · unfold Change.taken_end
      simp only
      rw [htklen]
      have : min caret a + (max caret a - min caret a) = max caret a := by omega
      rw [this]
    · unfold Change.taken_end
      simp only
      rw [htklen]
      omega
  have htext :
      (Editor.replace (⟨caret, some a⟩ : Cursor) text edit).2 =
        text.take (min caret a) ++ edit ++ text.drop (max caret a) := htext0
  have hlen' :
      (text.take (min caret a) ++ edit ++ text.drop (max caret a)).length =
        min caret a + edit.length + (text.length - max caret a) := by
    simp only [List.length_append, List.length_take, List.length_drop]
    omega
  refine ⟨by rw [hr]; rfl, rfl, htext, ?_, ?_, ?_⟩
  · intro hle hne
    show (if (caret : Nat) ≤ a ∧ 0 < edit.length then
          swap_ends ((swap_ends ⟨caret, some a⟩).move_to
            (Change.new edit (Cursor.range ⟨caret, some a⟩) text).added_end
            (apply_change text (Change.new edit (Cursor.range ⟨caret, some a⟩) text)).length)
        else
          (unset_anchor ⟨caret, some a⟩).move_to
            (Change.new edit (Cursor.range ⟨caret, some a⟩) text).added_end
            (apply_change text (Change.new edit (Cursor.range ⟨caret, some a⟩) text)).length) =
        (⟨caret, some (caret + edit.length)⟩ : Cursor)
    have hpos : 0 < edit.length := List.length_pos.mpr hne
    rw [if_pos ⟨hle, hpos⟩]
    have hend : (Change.new edit (Cursor.range ⟨caret, some a⟩) text).added_end =
        min caret a + edit.length := by
      rw [hr]; rfl
    rw [hend, htext0]
    unfold swap_ends Cursor.move_to
    simp only
    have hmin : min caret a = caret := by omega
    rw [hlen', hmin]
    have : min (caret + edit.length) (caret + edit.length + (text.length - max caret a)) =
        caret + edit.length := by omega
    rw [this]
  · intro hlt
    show (if (caret : Nat) ≤ a ∧ 0 < edit.length then
          swap_ends ((swap_ends ⟨caret, some a⟩).move_to
            (Change.new edit (Cursor.range ⟨caret, some a⟩) text).added_end
            (apply_change text (Change.new edit (Cursor.range ⟨caret, some a⟩) text)).length)
        else
          (unset_anchor ⟨caret, some a⟩).move_to
            (Change.new edit (Cursor.range ⟨caret, some a⟩) text).added_end
            (apply_change text (Change.new edit (Cursor.range ⟨caret, some a⟩) text)).length) =
        (⟨a + edit.length, none⟩ : Cursor)
    rw [if_neg (by omega)]
    have hend : (Change.new edit (Cursor.range ⟨caret, some a⟩) text).added_end =
        min caret a + edit.length := by
      rw [hr]; rfl
    rw [hend, htext0]
    unfold unset_anchor Cursor.move_to
    simp only
    have hmin : min caret a = a := by omega
    rw [hlen', hmin]
    have : min (a + edit.length) (a + edit.length + (text.length - max caret a)) =
        a + edit.length := by omega
    rw [this]
  · intro hle hnil
    show (if (caret : Nat) ≤ a ∧ 0 < edit.length then
          swap_ends ((swap_ends ⟨caret, some a⟩).move_to
            (Change.new edit (Cursor.range ⟨caret, some a⟩) text).added_end
            (apply_change text (Change.new edit (Cursor.range ⟨caret, some a⟩) text)).length)
        else
          (unset_anchor ⟨caret, some a⟩).move_to
            (Change.new edit (Cursor.range ⟨caret, some a⟩) text).added_end
            (apply_change text (Change.new edit (Cursor.range ⟨caret, some a⟩) text)).length) =
        (⟨caret, none⟩ : Cursor)
    rw [if_neg (by simp [hnil])]
    have hend : (Change.new edit (Cursor.range ⟨caret, some a⟩) text).added_end =
        min caret a + edit.length := by
      rw [hr]; rfl
    rw [hend, htext0]
    unfold unset_anchor Cursor.move_to
    simp only
    have hmin : min caret a = caret := by omega
    rw [hlen', hmin, hnil]
    have : min (caret + 0) (caret + 0 + (text.length - max caret a)) = caret := by omega
    simp only [List.length_nil]
    rw [this]

/-- Witness for C2 at buffer `"abcdef"`, caret 1, anchor 4, edit `"ZZ"`. -/
theorem c2_replace_keeps_caret_on_start_witness :
    (Editor.replace (⟨1, some 4⟩ : Cursor) "abcdef".toList "ZZ".toList).2 =
        "aZZef".toList ∧
      (Editor.replace (⟨1, some 4⟩ : Cursor) "abcdef".toList "ZZ".toList).1 =
        ⟨1, some 3⟩ := by
  have h := c2_replace_keeps_caret_on_start "abcdef".toList "ZZ".toList 1 4 (by decide)
  refine ⟨?_, ?_⟩
  · rw [h.2.2.1]
    decide
  · have := h.2.2.2.1 (by decide) (by decide)
    simpa using this

/-! ### Multi-cursor editing (claim C3) -/

/-- `Diff` (src/duat-core/src/input/helper/mod.rs): the shared accumulator of
byte and change deltas during an edit batch. -/
structure Diff where
  bytes : Int
  changes : Int

/-- `Diff::shift_cursor` (src/duat-core/src/input/helper/mod.rs): move the
caret (and the anchor, through two `swap_ends`) by the accumulated byte
delta.  The source's `assoc_index` update discards its own result (`map` over
`as_mut` without writing back), so nothing else changes. -/
def Diff.shift_cursor (d : Diff) (c : Cursor) (len : Nat) : Cursor :=
  let c1 := c.move_hor d.bytes len
  match c1.anchor with
  | some _ => swap_ends ((swap_ends c1).move_hor d.bytes len)
  | none => c1

/-- `Editor::insert` (src/duat-core/src/input/helper/mod.rs): apply a `Change`
with empty taken text at the caret; the caret itself does not move, and an
anchor at or after the caret is shifted forward by the inserted length.  The
accumulator's `bytes` grows by `added_end - taken_end`.  The history
registration (`File`-only) does not touch the text or the caret and its
module is absent from the sources, so `changes` is left unchanged here. -/
def Editor.insert (cursor : Cursor) (text : List α) (accum : Diff) (edit : List α) :
    Cursor × List α × Diff :=
  let change := Change.new edit (cursor.caret, cursor.caret) text
  let diff := (change.added_text.length : Int) - (change.taken_text.length : Int)
  let text' := apply_change text change
  let accum' : Diff :=
    ⟨accum.bytes + ((change.added_end : Int) - (change.taken_end : Int)), accum.changes⟩
  let cursor' :=
    match cursor.anchor with
    | some anchor =>
      if cursor.caret ≤ anchor then
        swap_ends ((swap_ends cursor).move_hor diff text'.length)
      else cursor
    | none => cursor
  (cursor', text', accum')

/-- `Cursors::insert_removed`.  Modelled from the spec (§3.6, §4.7, the cursors
module is absent): reinsert a drained cursor into the list ordered by caret,
ties broken by insertion order. -/
def insert_removed (cs : List (Cursor × Bool)) (new : Cursor × Bool) :
    List (Cursor × Bool) :=
  match cs with
  | [] => [new]
  | c :: rest =>
    if new.1.caret < c.1.caret then new :: c :: rest else c :: insert_removed rest new

/-- `EditHelper::edit_on_each` (src/duat-core/src/input/helper/mod.rs): drain
the cursors, then for each one shift it by the accumulated diff, run the edit
closure, and reinsert it. -/
def edit_on_each (cursors : List (Cursor × Bool)) (text : List α)
    (f : Cursor → List α → Diff → Cursor × List α × Diff) :
    List (Cursor × Bool) × List α :=
  let res := cursors.foldl
    (fun st cm =>
      let c1 := st.2.2.shift_cursor cm.1 st.2.1.length
      let r := f c1 st.2.1 st.2.2
      (insert_removed st.1 (r.1, cm.2), r.2.1, r.2.2))
    (([] : List (Cursor × Bool)), text, (⟨0, 0⟩ : Diff))
  (res.1, res.2.1)

/-- The S2 scenario: buffer `"aaa\nbbb\nccc"`, cursors at characters 1, 5 and
9 (the first one main), each editor inserting `"X"`. -/
def c3Run : List (Cursor × Bool) × List Char :=
  edit_on_each [(⟨1, none⟩, true), (⟨5, none⟩, false), (⟨9, none⟩, false)]
    "aaa\nbbb\nccc".toList
    (fun c t d => Editor.insert c t d "X".toList)

/-- C3 counterexample: the run leaves the carets at characters 1, 6 and 11,
not at 2, 7 and 12 as the claim states — `Editor::insert` places the edit at
the caret without moving the caret past it. -/
theorem c3_counterexample :
    c3Run.1.map (fun cm => cm.1.caret) ≠ [2, 7, 12] := by decide

/-- C3 (amended): the run yields the buffer `"aXaa\nbXbb\ncXcc"` and leaves
the three carets at characters 1, 6 and 11: each pending cursor is shifted by
the accumulated byte diff of the edits before it, and the inserted text lands
after the caret that produced it. -/
theorem c3_multi_cursor_insert :
    c3Run.2 = "aXaa\nbXbb\ncXcc".toList ∧
      c3Run.1.map (fun cm => cm.1.caret) = [1, 6, 11] := by
  constructor
  · decide
  · decide

/-! ### Forward search never stalls (claim C8) -/

/-- The retry loop of `Text::search_fwd` and `Searcher::search_fwd`
(src/duat-core/src/text/search.rs).  The external lazy-DFA search
`try_search_fwd` is abstracted as `f`, mapping the input's start offset to
the end offset of the found match.  The loop reads `init = fwd_input.start()`;
on an empty match at `init` it sets the start to `init + 1` — one byte, not
one scalar value — and searches again; the next report is compared against
`init` once more, and the inner impossible repetition (a DFA never reports a
match end below the input start) is rendered as `none`. -/
def search_fwd_step (f : Nat → Option Nat) (init : Nat) : Option Nat :=
  match f init with
  | none => none
  | some e =>
    if e = init then
      match f (init + 1) with
      | none => none
      | some e2 => if e2 = init then none else some e2
    else some e

/-- C8: assuming only the forward-DFA interface fact that a search never
reports a match end before its input start, the loop never yields an empty
match at the offset searching began from: every yielded end offset is
strictly greater than `init`, and an empty match at `init` makes the loop
advance by exactly one byte and return the result of searching from
`init + 1`. -/
theorem c8_search_fwd_advances (f : Nat → Option Nat)
    (hf : ∀ s e, f s = some e → s ≤ e) (init : Nat) :
    (∀ e, search_fwd_step f init = some e → init < e) ∧
      (f init = some init → search_fwd_step f init = f (init + 1)) := by
  constructor
  · intro e h
    unfold search_fwd_step at h
    split at h
    · exact absurd h (by simp)
    · rename_i e1 hfa
      split at h
      · split at h
        · exact absurd h (by simp)
        · rename_i heq e2 hfb
          split at h
          · exact absurd h (by simp)
          · rename_i he2
            have h2 := hf _ _ hfb
            have he : e2 = e := by simpa using h
            omega
      · rename_i hne
        have h2 := hf _ _ hfa
        have he : e1 = e := by simpa using h
        omega
  · intro hinit
    cases hfb : f (init + 1) with
    | none => simp [search_fwd_step, hinit, hfb]
    | some e2 =>
      have h2 := hf _ _ hfb
      have hne : ¬e2 = init := by omega
      simp [search_fwd_step, hinit, hfb, hne]

/-- Witness for C8 with the search oracle that finds an empty match at every
offset: from start 0 the loop skips the empty match at 0 and yields end 1. -/
theorem c8_search_fwd_advances_witness :
    search_fwd_step (fun s => some s) 0 = some 1 ∧ 0 < 1 := by
  have h := c8_search_fwd_advances (fun s => some s)
    (by intro s e hh; simp only [Option.some.injEq] at hh; omega) 0
  have h2 := h.2 rfl
  constructor
  · rw [h2]
  · exact Nat.zero_lt_one

/-! ### The layout constraint solver (claims C4 and C5)

The rectangle tree of src/parsec-term/src/layout/mod.rs feeds linear
constraints to the external `cassowary` crate.  Variables are modelled by
ids, `f64` scalars by formal integer fractions (exact for every value the
layout code produces), and the solver by the list of installed constraints
together with the interface behaviour its documentation and the
specification give it: adding a constraint fails when it duplicates an
installed one or when a `REQUIRED` constraint contradicts the installed
`REQUIRED` set.  Every `solver.add_constraint(..)` / `remove_constraint(..)`
call in the layout code is unwrapped, so a solver error is a panic of the
source; panics are modelled as `none`. -/

namespace Layout

/-- An `f64` scalar as a formal fraction `num / den`.  All scalars the layout
code builds are exactly representable, so this models the source's `f64`
arithmetic without rounding. -/
structure Scalar where
  num : Int
  den : Int
deriving DecidableEq

/-- The scalar of an integer. -/
def Scalar.ofInt (n : Int) : Scalar := ⟨n, 1⟩

/-- Addition of fractions. -/
def Scalar.add (a b : Scalar) : Scalar := ⟨a.num * b.den + b.num * a.den, a.den * b.den⟩

/-- Multiplication of fractions. -/
def Scalar.mul (a b : Scalar) : Scalar := ⟨a.num * b.num, a.den * b.den⟩

/-- Negation. -/
def Scalar.neg (a : Scalar) : Scalar := ⟨-a.num, a.den⟩

/-- Division of fractions. -/
def Scalar.div (a b : Scalar) : Scalar := ⟨a.num * b.den, a.den * b.num⟩

/-- Whether the fraction's value is zero (the denominators are never zero in
the constraints built here). -/
def Scalar.isZero (a : Scalar) : Bool := a.num = 0

/-- A linear expression over solver variables: coefficient terms plus a
constant (cassowary's `Expression`). -/
structure Expr where
  terms : List (Nat × Scalar)
  const : Scalar
deriving DecidableEq

/-- The expression of a single variable. -/
def Expr.var (v : Nat) : Expr := ⟨[(v, Scalar.ofInt 1)], Scalar.ofInt 0⟩

/-- A constant expression. -/
def Expr.ofConst (q : Scalar) : Expr := ⟨[], q⟩

/-- Expression addition. -/
def Expr.add (a b : Expr) : Expr := ⟨a.terms ++ b.terms, a.const.add b.const⟩

/-- `Expression * f64`. -/
def Expr.scale (q : Scalar) (a : Expr) : Expr :=
  ⟨a.terms.map (fun t => (t.1, q.mul t.2)), q.mul a.const⟩

/-- The relations of cassowary's `WeightedRelation` (`EQ`, `GE`, `LE`). -/
inductive Rel where
  | eq
  | ge
  | le
deriving DecidableEq

/-- A weighted constraint `lhs (rel) rhs` at a strength. -/
structure WCon where
  lhs : Expr
  rel : Rel
  rhs : Expr
  strength : Scalar
deriving DecidableEq

/-- cassowary strength `REQUIRED`. -/
def REQUIRED : Scalar := Scalar.ofInt 1001001000

/-- cassowary strength `STRONG`. -/
def STRONG : Scalar := Scalar.ofInt 1000000

/-- cassowary strength `MEDIUM`. -/
def MEDIUM : Scalar := Scalar.ofInt 1000

/-- cassowary strength `WEAK`. -/
def WEAK : Scalar := Scalar.ofInt 1

/-- The difference `lhs - rhs` of a constraint, as terms plus a constant. -/
def WCon.diff (c : WCon) : Expr :=
  ⟨c.lhs.terms ++ c.rhs.terms.map (fun t => (t.1, t.2.neg)),
    c.lhs.const.add c.rhs.const.neg⟩

/-- One propagation step over the difference expression of a `REQUIRED`
equality: substitute known variables; with no unknowns left a nonzero residue
is a contradiction, with exactly one unknown its value is forced. -/
def propStep (st : List (Nat × Scalar) × Bool) (e : Expr) : List (Nat × Scalar) × Bool :=
  if st.2 then st
  else
    let asg := st.1
    let evals := e.terms.map (fun t => (t, asg.lookup t.1))
    let unknowns := evals.filterMap (fun p => if p.2.isNone then some p.1 else none)
    let ksum := (evals.filterMap (fun p => p.2.map (fun v => p.1.2.mul v))).foldl
      Scalar.add e.const
    match unknowns with
    | [] => (asg, !ksum.isZero)
    | [(v, a)] => if a.isZero then st else ((v, ksum.neg.div a) :: asg, false)
    | _ => st

/-- Whether the `REQUIRED` equality constraints of a set are contradictory,
by bounded value propagation.  This is a conservative decision: a `true` is a
genuine contradiction, exactly what the cassowary interface reports as
`AddConstraintError::UnsatisfiableConstraint`. -/
def requiredUnsat (cs : List WCon) : Bool :=
  let eqs := (cs.filter fun c => c.strength = REQUIRED ∧ c.rel = Rel.eq).map WCon.diff
  ((List.range (eqs.length + 1)).foldl (fun st _ => eqs.foldl propStep st) ([], false)).2

/-- `cassowary::AddConstraintError`. -/
inductive AddConstraintError where
  | duplicateConstraint
  | unsatisfiableConstraint
deriving DecidableEq

/-- Modelled from the spec: `Solver::add_constraint` of the external cassowary
crate — fails on a duplicate of an installed constraint, or when the new
constraint makes the installed `REQUIRED` set contradictory (§4.11:
`attempting to install contradictory REQUIRED constraints causes the solver
to fail`). -/
def add_constraint (s : List WCon) (c : WCon) : Except AddConstraintError (List WCon) :=
  if s.contains c then Except.error AddConstraintError.duplicateConstraint
  else if requiredUnsat (c :: s) then Except.error AddConstraintError.unsatisfiableConstraint
  else Except.ok (c :: s)

/-- `Solver::add_constraints`: add each in order, stopping at the first
error. -/
def add_constraints (s : List WCon) (cs : List WCon) :
    Except AddConstraintError (List WCon) :=
  cs.foldlM add_constraint s

/-- Modelled from the spec: `Solver::remove_constraint` of the cassowary crate
fails when the constraint is not installed. -/
def remove_constraint (s : List WCon) (c : WCon) : Except Unit (List WCon) :=
  if s.contains c then Except.ok (s.erase c) else Except.error ()

/-- `Axis` of the ui module (the module is absent from the sources; the two
variants are fixed by the spec, §3.8). -/
inductive Axis where
  | Horizontal
  | Vertical
deriving DecidableEq

/-- `Axis::perp`. -/
def Axis.perp : Axis → Axis
  | Axis.Horizontal => Axis.Vertical
  | Axis.Vertical => Axis.Horizontal

/-- `VarPoint`: the pair of solver variables of a corner. -/
structure VarPoint where
  x : Nat
  y : Nat
deriving DecidableEq

/-- `Coord` (src/parsec-term). -/
structure Coord where
  x : Nat
  y : Nat
deriving DecidableEq

/-- Modelled from the spec: `Frame` lives in the absent `frame.rs`; only the
`Empty` frame — which draws no edges and contributes no insets — is needed
here. -/
inductive Frame where
  | Empty
deriving DecidableEq

/-- `Edge` (frame.rs, absent): an edge to draw, remembered by the variable
points of the rect that created it. -/
structure Edge where
  br : VarPoint
  tl : VarPoint
  axis : Axis
  frame : Frame
deriving DecidableEq

/-- `Edge::matches_vars` (frame.rs, absent): whether the edge was created from
the given variable points. -/
def Edge.matches_vars (e : Edge) (br tl : VarPoint) : Bool :=
  e.br = br ∧ e.tl = tl

/-- `Constraint` of the ui module.  Modelled from the spec (§3.8): the module
is absent from the sources; the variants are `Ratio(num, den)`,
`Percent(0..=100)`, `Length(n)`, `Min(n)` and `Max(n)`. -/
inductive Constraint where
  | Ratio (num den : Nat)
  | Percent (p : Nat)
  | Length (len : Scalar)
  | Min (m : Scalar)
  | Max (m : Scalar)
deriving DecidableEq

/-- `Constraints` (src/parsec-term/src/layout/mod.rs): a child's optional
defined constraint and optional ratio constraint, with their installed
handles. -/
structure Constraints where
  defined : Option (WCon × Constraint)
  ratio : Option (WCon × Scalar)
deriving DecidableEq

/-- `Constraints::default()`. -/
def Constraints.default : Constraints := ⟨none, none⟩

/-- `Rect` (src/parsec-term/src/layout/mod.rs): corner variables, installed
edge constraints, and the optional lineage `(children, axis, clustered)`. -/
inductive Rect where
  | mk (index : Nat) (tl br : VarPoint) (edge_cons : List WCon)
      (lineage : Option (List (Rect × Constraints) × Axis × Bool))

/-- The `index` field. -/
def Rect.index : Rect → Nat
  | Rect.mk i _ _ _ _ => i

/-- The `tl` corner. -/
def Rect.tl : Rect → VarPoint
  | Rect.mk _ tl _ _ _ => tl

/-- The `br` corner. -/
def Rect.br : Rect → VarPoint
  | Rect.mk _ _ br _ _ => br

/-- The installed edge constraints. -/
def Rect.edge_cons : Rect → List WCon
  | Rect.mk _ _ _ ec _ => ec

/-- The lineage. -/
def Rect.lineage : Rect → Option (List (Rect × Constraints) × Axis × Bool)
  | Rect.mk _ _ _ _ l => l

/-- Replace the edge constraints. -/
def Rect.withEdgeCons : Rect → List WCon → Rect
  | Rect.mk i tl br _ l, ec => Rect.mk i tl br ec l

/-- Append one edge constraint (`edge_cons.push`). -/
def Rect.pushCon (r : Rect) (c : WCon) : Rect :=
  r.withEdgeCons (r.edge_cons ++ [c])

/-- Replace the lineage. -/
def Rect.withLineage : Rect → Option (List (Rect × Constraints) × Axis × Bool) → Rect
  | Rect.mk i tl br ec _, l => Rect.mk i tl br ec l

/-- The child entry at an index. -/
def Rect.childAt (r : Rect) (i : Nat) : Option (Rect × Constraints) :=
  r.lineage.bind fun l => l.1.get? i

/-- Store an updated child entry back into the lineage. -/
def Rect.setChild (r : Rect) (i : Nat) (c : Rect × Constraints) : Rect :=
  match r.lineage with
  | none => r
  | some (children, axis, cl) => r.withLineage (some (children.set i c, axis, cl))

/-- `Rect::start`: the variable of the left or upper side. -/
def Rect.startVar (r : Rect) (a : Axis) : Nat :=
  match a with
  | Axis.Horizontal => r.tl.x
  | Axis.Vertical => r.tl.y

/-- `Rect::end`: the variable of the right or lower side. -/
def Rect.endVar (r : Rect) (a : Axis) : Nat :=
  match a with
  | Axis.Horizontal => r.br.x
  | Axis.Vertical => r.br.y

/-- `Rect::len`: the length expression `end - start` on an axis. -/
def Rect.len (r : Rect) (a : Axis) : Expr :=
  ⟨[(r.endVar a, Scalar.ofInt 1), (r.startVar a, Scalar.ofInt (-1))], Scalar.ofInt 0⟩

/-- `Rect::is_frameable` (src/parsec-term/src/layout/mod.rs).  The source
unwraps the parent's lineage; a parent without lineage cannot reach this call
and is read as not clustered. -/
def Rect.is_frameable (self : Rect) (parent : Option Rect) : Bool :=
  if (parent.bind fun p => p.lineage.map fun l => l.2.2).getD false then false
  else
    match self.lineage with
    | some (_, _, clustered) => clustered
    | none => true

/-- `Rect::form_frame` (src/parsec-term/src/layout/mod.rs): the frame's edge
insets, pushing drawn edges.  `Frame::Empty` has no edges, so nothing is
pushed and all insets are zero. -/
def Rect.form_frame (_self : Rect) (frame : Frame) (_max : Coord) (edges : List Edge) :
    (Scalar × Scalar × Scalar × Scalar) × List Edge :=
  match frame with
  | Frame.Empty =>
    ((Scalar.ofInt 0, Scalar.ofInt 0, Scalar.ofInt 0, Scalar.ofInt 0), edges)

/-- `Rect::clear_constraints`: drain the edge constraints, removing each from
the solver; every removal is unwrapped, so a missing constraint is a panic
(`none`). -/
def Rect.clear_constraints (self : Rect) (solver : List WCon) :
    Option (Rect × List WCon) :=
  (self.edge_cons.foldlM (fun s c => (remove_constraint s c).toOption) solver).map
    fun s => (self.withEdgeCons [], s)

/-- `Rect::set_constraints` (src/parsec-term/src/layout/mod.rs): extend the
edge constraints with the four `GE(REQUIRED)` corner constraints, drop this
rect's old edges, form the frame, and pin the perpendicular sides to the
parent's; returns the parallel-axis insets `(start, end)`. -/
def Rect.set_constraints (self parent : Rect) (axis : Axis) (frame : Frame)
    (max : Coord) (edges : List Edge) : Rect × List Edge × (Scalar × Scalar) :=
  let cons1 := self.edge_cons ++
    [⟨Expr.var self.tl.x, Rel.ge, Expr.ofConst (Scalar.ofInt 0), REQUIRED⟩,
     ⟨Expr.var self.tl.y, Rel.ge, Expr.ofConst (Scalar.ofInt 0), REQUIRED⟩,
     ⟨Expr.var self.br.x, Rel.ge, Expr.var self.tl.x, REQUIRED⟩,
     ⟨Expr.var self.br.y, Rel.ge, Expr.var self.tl.y, REQUIRED⟩]
  let edges1 := edges.filter fun e => !(e.matches_vars self.br self.tl)
  let fr :=
    if self.is_frameable (some parent) then self.form_frame frame max edges1
    else ((Scalar.ofInt 0, Scalar.ofInt 0, Scalar.ofInt 0, Scalar.ofInt 0), edges1)
  let (right, up, left, down) := fr.1
  let (para_left, para_right, start, end_) :=
    match axis.perp with
    | Axis.Vertical => (up, down, left, right)
    | Axis.Horizontal => (left, right, up, down)
  let cons2 := cons1 ++
    [⟨Expr.var (self.startVar axis.perp), Rel.eq,
      (Expr.var (parent.startVar axis.perp)).add (Expr.ofConst para_left), REQUIRED⟩,
     ⟨(Expr.var (self.endVar axis.perp)).add (Expr.ofConst para_right), Rel.eq,
      Expr.var (parent.endVar axis.perp), REQUIRED⟩]
  (self.withEdgeCons cons2, fr.2, (start, end_))

/-- The first-child and successor edge constraints `prepare_child` pushes
after `set_constraints`: at index 0 the child's start is pinned to the
parent's, and the child's end (plus the inset) is pinned to the next
sibling's start or to the parent's end. -/
def withSuccessorCons (parent : Rect) (children : List (Rect × Constraints))
    (axis : Axis) (child2 : Rect) (index : Nat) (se : Scalar × Scalar) : Rect :=
  let child3 :=
    if index = 0 then
      child2.pushCon ⟨Expr.var (child2.startVar axis), Rel.eq,
        (Expr.var (parent.startVar axis)).add (Expr.ofConst se.1), REQUIRED⟩
    else child2
  match children.get? (index + 1) with
  | some (next, _) =>
    child3.pushCon ⟨(Expr.var (child3.endVar axis)).add (Expr.ofConst se.2), Rel.eq,
      Expr.var (next.startVar axis), REQUIRED⟩
  | none =>
    child3.pushCon ⟨(Expr.var (child3.endVar axis)).add (Expr.ofConst se.2), Rel.eq,
      Expr.var (parent.endVar axis), REQUIRED⟩

/-- `prepare_child` (src/parsec-term/src/layout/mod.rs): clear the child's
constraints, rebuild them against the parent, install them in the solver with
`add_constraints(..).unwrap()`, and recurse into the child's own children.
The source unwraps the parent's lineage, indexes `children[index]`, and
unwraps every solver result, so each of those failure points is a `none`
(panic).  The fuel argument only bounds the recursion depth along the
finite rect tree. -/
def prepare_child :
    Nat → Rect → Nat → List WCon → Frame → Coord → List Edge →
      Option (Rect × List WCon × List Edge)
  | 0, _, _, _, _, _, _ => none
  | Nat.succ fuel, parent, index, solver, frame, max, edges =>
    match parent.lineage with
    | none => none
    | some (children, axis, _) =>
      match children.get? index with
      | none => none
      | some (child, ccons) =>
        match child.clear_constraints solver with
        | none => none
        | some (child1, solver1) =>
          let scr := child1.set_constraints parent axis frame max edges
          let child4 := withSuccessorCons parent children axis scr.1 index scr.2.2
          match add_constraints solver1 child4.edge_cons with
          | Except.error _ => none
          | Except.ok solver2 =>
            let glen :=
              match child4.lineage with
              | some (gchildren, _, _) => gchildren.length
              | none => 0
            let deeper : Option (Rect × List WCon × List Edge) :=
              (List.range glen).foldl
                (fun acc i => acc.bind fun r => prepare_child fuel r.1 i r.2.1 frame max r.2.2)
                (some (child4, solver2, scr.2.1))
            deeper.map fun r => (parent.setChild index (r.1, ccons), r.2.1, r.2.2)

/-- The cassowary constraint `set_defined_constraint` builds for a defined
`Constraint` (the `match defined` of the source); the `assert!`s on `Ratio`
and `Percent` panic (`none`) when violated. -/
def definedCon (defined : Constraint) (child parent : Rect) (axis : Axis) : Option WCon :=
  match defined with
  | Constraint.Ratio den div =>
    if den < div then
      some ⟨child.len axis, Rel.eq,
        Expr.scale ((Scalar.ofInt den).div (Scalar.ofInt div)) (parent.len axis),
        WEAK.mul (Scalar.ofInt 2)⟩
    else none
  | Constraint.Percent percent =>
    if percent ≤ 100 then
      some ⟨child.len axis, Rel.eq,
        Expr.scale ((Scalar.ofInt percent).div (Scalar.ofInt 100)) (parent.len axis),
        WEAK.mul (Scalar.ofInt 2)⟩
    else none
  | Constraint.Length len =>
    some ⟨child.len axis, Rel.eq, Expr.ofConst len, STRONG⟩
  | Constraint.Min m =>
    some ⟨child.len axis, Rel.ge, Expr.ofConst m, MEDIUM⟩
  | Constraint.Max m =>
    some ⟨child.len axis, Rel.le, Expr.ofConst m, MEDIUM⟩

/-- `set_defined_constraint` (src/parsec-term/src/layout/mod.rs): build the
cassowary constraint for a user-defined `Constraint`, install it with
`add_constraint(..).unwrap()`, and record the handle in the child's
`Constraints`.  The `assert!`s, a solver error, a missing lineage and a
missing child each panic (`none`). -/
def set_defined_constraint (defined : Constraint) (parent : Rect) (index : Nat)
    (axis : Axis) (solver : List WCon) : Option (Rect × List WCon × WCon) :=
  parent.lineage.bind fun l =>
    (l.1.get? index).bind fun ce =>
      (definedCon defined ce.1 parent axis).bind fun con =>
        (add_constraint solver con).toOption.map fun solver' =>
          (parent.withLineage
              (some (l.1.set index (ce.1, ⟨some (con, defined), ce.2.ratio⟩), l.2.1, l.2.2)),
            solver', con)

/-- The constraint forms and strengths the specification prescribes for a
user-defined child constraint (§4.11), written from the spec's words for
comparison with the source's `set_defined_constraint`. -/
def claimedConstraint (defined : Constraint) (child parent : Rect) (axis : Axis) : WCon :=
  match defined with
  | Constraint.Ratio num den =>
    ⟨child.len axis, Rel.eq,
      Expr.scale ((Scalar.ofInt num).div (Scalar.ofInt den)) (parent.len axis),
      WEAK.mul (Scalar.ofInt 2)⟩
  | Constraint.Percent p =>
    ⟨child.len axis, Rel.eq,
      Expr.scale ((Scalar.ofInt p).div (Scalar.ofInt 100)) (parent.len axis),
      WEAK.mul (Scalar.ofInt 2)⟩
  | Constraint.Length n => ⟨child.len axis, Rel.eq, Expr.ofConst n, STRONG⟩
  | Constraint.Min n => ⟨child.len axis, Rel.ge, Expr.ofConst n, MEDIUM⟩
  | Constraint.Max n => ⟨child.len axis, Rel.le, Expr.ofConst n, MEDIUM⟩

theorem definedCon_eq_claimed (defined : Constraint) (child parent : Rect) (axis : Axis)
    (con : WCon) (h : definedCon defined child parent axis = some con) :
    con = claimedConstraint defined child parent axis := by
  cases defined with
  | Ratio den div =>
    simp only [definedCon] at h
    by_cases hdd : den < div
    · rw [if_pos hdd] at h
      exact (Option.some.inj h).symm
    · rw [if_neg hdd] at h
      exact absurd h (by simp)
  | Percent p =>
    simp only [definedCon] at h
    by_cases hp : p ≤ 100
    · rw [if_pos hp] at h
      exact (Option.some.inj h).symm
    · rw [if_neg hp] at h
      exact absurd h (by simp)
  | Length n =>
    simp only [definedCon] at h
    exact (Option.some.inj h).symm
  | Min n =>
    simp only [definedCon] at h
    exact (Option.some.inj h).symm
  | Max n =>
    simp only [definedCon] at h
    exact (Option.some.inj h).symm

/-- A leaf rect with corner variables 4..7 and no installed constraints. -/
def c4Child : Rect := Rect.mk 1 ⟨4, 5⟩ ⟨6, 7⟩ [] none

/-- A parent rect (variables 0..3) holding `c4Child` on the horizontal axis. -/
def c4Parent : Rect :=
  Rect.mk 0 ⟨0, 1⟩ ⟨2, 3⟩ [] (some ([(c4Child, Constraints.default)], Axis.Horizontal, false))

/-- A solver state whose `REQUIRED` constraints pin the parent's left edge to 0
and the child's left edge to 5 — contradicting the `REQUIRED` edge constraint
`child.start == parent.start` that `prepare_child` installs. -/
def c4Solver : List WCon :=
  [⟨Expr.var 0, Rel.eq, Expr.ofConst (Scalar.ofInt 0), REQUIRED⟩,
   ⟨Expr.var 4, Rel.eq, Expr.ofConst (Scalar.ofInt 5), REQUIRED⟩]

/-- C4 counterexample: with the installed `REQUIRED` constraints of `c4Solver`,
the new edge constraint `child.start == parent.start` is contradictory; the
solver rejects it and `prepare_child` unwraps the rejection — the modelled
panic `none`.  No error is returned to the caller: the operation's return
carries no error channel at all, so the claim's required behaviour is
impossible in this code. -/
theorem c4_counterexample :
    prepare_child 2 c4Parent 0 c4Solver Frame.Empty ⟨80, 24⟩ [] = none := by
  rfl

/-- C4 (amended): whenever the solver rejects the edge constraints built for a
child — in particular when they contradict the installed `REQUIRED`
constraints — `prepare_child` panics (`none`) rather than returning an error
to its caller. -/
theorem c4_prepare_child_panics_on_conflict (fuel : Nat) (parent : Rect) (index : Nat)
    (solver : List WCon) (frame : Frame) (max : Coord) (edges : List Edge)
    (children : List (Rect × Constraints)) (axis : Axis) (cl : Bool) (child : Rect)
    (ccons : Constraints) (child1 : Rect) (solver1 : List WCon) (err : AddConstraintError)
    (hl : parent.lineage = some (children, axis, cl))
    (hc : children.get? index = some (child, ccons))
    (hclear : child.clear_constraints solver = some (child1, solver1))
    (hadd : add_constraints solver1
        (withSuccessorCons parent children axis
          (child1.set_constraints parent axis frame max edges).1 index
          (child1.set_constraints parent axis frame max edges).2.2).edge_cons =
      Except.error err) :
    prepare_child (fuel + 1) parent index solver frame max edges = none := by
  simp only [prepare_child, hl, hc, hclear, hadd]

/-- Witness for C4 at the `c4Parent`/`c4Solver` state, with the solver
reporting the contradiction as `UnsatisfiableConstraint`. -/
theorem c4_prepare_child_panics_on_conflict_witness :
    prepare_child 4 c4Parent 0 c4Solver Frame.Empty ⟨80, 24⟩ [] = none :=
  c4_prepare_child_panics_on_conflict 3 c4Parent 0 c4Solver Frame.Empty ⟨80, 24⟩ []
    [(c4Child, Constraints.default)] Axis.Horizontal false c4Child Constraints.default
    c4Child c4Solver AddConstraintError.unsatisfiableConstraint rfl rfl rfl (by rfl)

/-- C5: whenever `set_defined_constraint` succeeds, the constraint it installs
for the child has exactly the form and strength the specification prescribes:
`Ratio(num, den)` as `child.len == parent.len * num/den` at `WEAK*2`,
`Percent(p)` as `child.len == parent.len * p/100` at `WEAK*2`, `Length(n)` as
`child.len == n` at `STRONG`, `Min(n)` as `child.len >= n` at `MEDIUM`, and
`Max(n)` as `child.len <= n` at `MEDIUM`. -/
theorem c5_defined_constraint_forms (defined : Constraint) (parent : Rect) (index : Nat)
    (axis : Axis) (solver : List WCon) (res : Rect × List WCon × WCon) (child : Rect)
    (ccons : Constraints)
    (h : set_defined_constraint defined parent index axis solver = some res)
    (hc : parent.childAt index = some (child, ccons)) :
    res.2.2 = claimedConstraint defined child parent axis := by
  unfold set_defined_constraint at h
  unfold Rect.childAt at hc
  cases hl : parent.lineage with
  | none =>
    rw [hl] at h
    exact absurd h (by simp)
  | some l =>
    rw [hl] at h hc
    rw [Option.some_bind] at h hc
    cases hg : l.1.get? index with
    | none =>
      rw [hg] at h
      exact absurd h (by simp)
    | some ce =>
      rw [hg] at h
      rw [hg] at hc
      have hce : ce = (child, ccons) := Option.some.inj hc
      rw [Option.some_bind] at h
      cases hd : definedCon defined ce.1 parent axis with
      | none =>
        rw [hd] at h
        exact absurd h (by simp)
      | some con =>
        rw [hd] at h
        rw [Option.some_bind] at h
        cases ha : add_constraint solver con with
        | error e =>
          rw [ha] at h
          exact absurd h (by simp [Except.toOption])
        | ok s2 =>
          rw [ha] at h
          have hres := Option.some.inj h
          have h22 : res.2.2 = con := by rw [← hres]
          rw [h22]
          have := definedCon_eq_claimed defined ce.1 parent axis con hd
          rw [this, hce]

/-- Witness for C5: installing `Ratio(1, 2)` on the `c4Parent` tree with an
empty solver installs `child.len == parent.len * 1/2` at `WEAK*2`. -/
theorem c5_defined_constraint_forms_witness :
    (set_defined_constraint (Constraint.Ratio 1 2) c4Parent 0 Axis.Horizontal []).isSome ∧
      ∀ res,
        set_defined_constraint (Constraint.Ratio 1 2) c4Parent 0 Axis.Horizontal [] =
          some res →
        res.2.2 = claimedConstraint (Constraint.Ratio 1 2) c4Child c4Parent Axis.Horizontal :=
  ⟨by rfl, fun res h =>
    c5_defined_constraint_forms (Constraint.Ratio 1 2) c4Parent 0 Axis.Horizontal [] res
      c4Child Constraints.default h rfl⟩

end Layout


/-! ### Horizontal scroll-to-gap (claim C6)

The print pipeline of src/parsec-term/src/label.rs measures text through the
`indents`/`words`/`bits` iterator chain; `PrintInfo::scroll_hor_to_gap` uses
`Label::get_width` over a line of the text to adjust `x_shift`.  Iterators
are embedded as list transformers carrying the same state; `u16` widths are
truncated modulo `2^16` exactly where the source casts.  A returned `none`
models a panic of a rope lookup. -/

namespace Label

/-- `TextBit` (src/parsec-core/src/text/mod.rs): a tag or a character. -/
inductive TextBit where
  | tag (t : Parsec.Tag)
  | char (c : Char)
deriving DecidableEq

/-- `TextBit::as_char`. -/
def TextBit.as_char : TextBit → Option Char
  | TextBit.char c => some c
  | TextBit.tag _ => none

/-- `TextBit::is_tag`. -/
def TextBit.is_tag : TextBit → Bool
  | TextBit.tag _ => true
  | TextBit.char _ => false

/-- `TabStops` (src/parsec-core/src/text/mod.rs); only the `Regular` variant is
exercised here (`Varied`'s lookup panics when its stops run out and no claim
involves it). -/
inductive TabStops where
  | Regular (step : Nat)
deriving DecidableEq

/-- `TabStops::spaces_at`. -/
def TabStops.spaces_at (ts : TabStops) (x : Nat) : Nat :=
  match ts with
  | TabStops.Regular step => step - x % step

/-- `WrapMethod` (src/parsec-core/src/text/mod.rs). -/
inductive WrapMethod where
  | Width
  | Capped (cap : Nat)
  | Word
  | NoWrap
deriving DecidableEq

/-- `WrapMethod::is_no_wrap`. -/
def WrapMethod.is_no_wrap : WrapMethod → Bool
  | WrapMethod.NoWrap => true
  | _ => false

/-- `usize::MAX`. -/
def usizeMax : Nat := 2 ^ 64 - 1

/-- `WrapMethod::wrapping_cap`.  Modelled from the spec (the defining module is
absent from the sources): the wrapping width is the cap under `Capped`, the
label width under `Width` and `Word`, and unbounded (`usize::MAX`) under
`NoWrap`, whose characters are clipped rather than wrapped (§4.10). -/
def WrapMethod.wrapping_cap (w : WrapMethod) (width : Nat) : Nat :=
  match w with
  | WrapMethod.Capped cap => cap
  | WrapMethod.NoWrap => usizeMax
  | _ => width

/-- `ScrollOff` (src/parsec-core/src/text/mod.rs). -/
structure ScrollOff where
  y_gap : Nat
  x_gap : Nat
deriving DecidableEq

/-- `WordChars` (src/parsec-core/src/text/mod.rs): inclusive character
ranges. -/
def WordChars := List (Char × Char)

/-- `WordChars::contains`. -/
def WordChars.contains (w : WordChars) (c : Char) : Bool :=
  w.any fun r => r.1 ≤ c ∧ c ≤ r.2

/-- `PrintCfg` (src/parsec-core/src/text/mod.rs). -/
structure PrintCfg where
  wrap_method : WrapMethod
  indent_wrap : Bool
  tab_stops : TabStops
  new_line : NewLine
  scrolloff : ScrollOff
  word_chars : WordChars

/-- Modelled from the external unicode-width crate
(`UnicodeWidthChar::width(c).unwrap_or(0)`), restricted to the character
ranges in use: printable ASCII has width 1, control characters width 0.
Wide and combining characters do not occur in any statement below. -/
def ucWidth (c : Char) : Nat :=
  if 0x20 ≤ c.toNat ∧ c.toNat ≤ 0x7E then 1 else 0

/-- `len_from` (src/parsec-term/src/label.rs): the on-screen width of a
character at a column. -/
def len_from (c : Char) (start : Nat) (tab_stops : TabStops) : Nat :=
  if c = '\t' then tab_stops.spaces_at start
  else if c = '\n' then 1
  else ucWidth c

/-- The scan state of `indents`: the current indent and whether the line is
still in its indentation prefix. -/
def indentsGo (ts : TabStops) (width : Nat) (st : Nat × Bool) :
    List (Nat × TextBit) → List (Nat × Nat × TextBit)
  | [] => []
  | (index, bit) :: rest =>
    let old_indent := if st.1 < width then st.1 else 0
    let st' :=
      match bit, st.2 with
      | TextBit.char '\t', true => (st.1 + ts.spaces_at st.1, true)
      | TextBit.char ' ', true => (st.1 + 1, true)
      | TextBit.char '\n', _ => (0, true)
      | TextBit.char _, _ => (st.1, false)
      | TextBit.tag _, oi => (st.1, oi)
    (old_indent, index, bit) :: indentsGo ts width st' rest

/-- `indents` (src/parsec-term/src/label.rs): annotate each item with the
current line's indent. -/
def indents (l : List (Nat × TextBit)) (ts : TabStops) (width : Nat) :
    List (Nat × Nat × TextBit) :=
  indentsGo ts width (0, true) l

/-- The scan of `bits` (src/parsec-term/src/label.rs): running column `x`,
wrap markers when the width is surpassed, reset on `'\n'`. -/
def bitsGo (ts : TabStops) (width : Nat) (st : Nat × Bool) :
    List (Nat × Nat × TextBit) → Bool → List (Option Nat × Nat × TextBit)
  | [], _ => []
  | (indent, index, bit) :: rest, no_wrap =>
    let len := (bit.as_char.map fun c => len_from c st.1 ts).getD 0
    let x1 := st.1 + len
    let surpassed := decide (x1 > width) || (decide (x1 = width) && decide (len = 0))
    let tag_on_indent := decide (indent > x1 - len) && bit.is_tag
    let fire := (st.2 && !tag_on_indent) || (!no_wrap && surpassed)
    let nl := if fire then some indent else none
    let x2 := if fire then indent + len else x1
    let st2 := if fire then (x2, false) else (x2, st.2)
    let st3 :=
      match bit with
      | TextBit.char '\n' => ((0 : Nat), true)
      | _ => st2
    (nl, index, bit) :: bitsGo ts width st3 rest no_wrap

/-- `bits` (src/parsec-term/src/label.rs); the width is a `u16` in the source,
hence the truncation. -/
def bits (l : List (Nat × Nat × TextBit)) (width : Nat) (ts : TabStops)
    (no_wrap : Bool) : List (Option Nat × Nat × TextBit) :=
  bitsGo ts (width % 2 ^ 16) (0, true) l no_wrap

/-- The word-collection loop of `words` (src/parsec-term/src/label.rs): peek
items, pushing tags and word characters into the pending word; a non-word
character breaks the loop without being consumed (its width counts when the
word is still empty); `indent` follows every peeked character.  Returns the
collected word, its width, the updated indent and the unconsumed rest. -/
def collectWord (wc : WordChars) (ts : TabStops) (x : Nat) :
    List (Nat × Nat × TextBit) → Bool → Nat → Nat →
      List (Nat × TextBit) × Nat × Nat × List (Nat × Nat × TextBit)
  | [], _, wl, ind => ([], wl, ind, [])
  | (new_indent, index, bit) :: rest, wempty, wl, ind =>
    match bit with
    | TextBit.char c =>
      let iwc := wc.contains c
      let wl' := if wempty || iwc then wl + len_from c (x + wl) ts else wl
      if iwc then
        let r := collectWord wc ts x rest false wl' new_indent
        ((index, bit) :: r.1, r.2)
      else
        ([], wl', new_indent, (new_indent, index, bit) :: rest)
    | TextBit.tag _ =>
      let r := collectWord wc ts x rest false wl ind
      ((index, bit) :: r.1, r.2)

/-- The drain of a finished word in `words`: each remaining word item is
emitted with its own per-item wrap decision. -/
def drainWord (ts : TabStops) (width indent : Nat) (x : Nat) :
    List (Nat × TextBit) → List (Option Nat × Nat × TextBit) × Nat
  | [] => ([], x)
  | (index, bit) :: rest =>
    match bit with
    | TextBit.char c =>
      let len := len_from c x ts
      let ret := if x + len > width then some indent else none
      let x' := match ret with
        | some i => i + len
        | none => x + len
      let r := drainWord ts width indent x' rest
      ((ret, index, bit) :: r.1, r.2)
    | TextBit.tag _ =>
      if x ≥ width then
        let r := drainWord ts width indent indent rest
        ((some indent, index, bit) :: r.1, r.2)
      else
        let r := drainWord ts width indent x rest
        ((none, index, bit) :: r.1, r.2)

/-- The outer loop of `words` (src/parsec-term/src/label.rs): collect a word,
decide the wrap before it, then emit it (or the single non-word item).  The
fuel is the input length; every iteration consumes at least one input item. -/
def wordsGo (wc : WordChars) (ts : TabStops) (width : Nat) :
    Nat → Nat → Bool → Nat → List (Nat × Nat × TextBit) →
      List (Option Nat × Nat × TextBit)
  | 0, _, _, _, _ => []
  | _ + 1, _, _, _, [] => []
  | fuel + 1, x, next_line, indent, item :: input =>
    let col := collectWord wc ts x (item :: input) true 0 indent
    let word := col.1
    let word_len := col.2.1
    let ind := col.2.2.1
    let rest := col.2.2.2
    let wrap := next_line || decide (x + word_len > width)
    let nl := if wrap then some ind else none
    let x0 := if wrap then ind else x
    match word with
    | [] =>
      match rest with
      | [] => []
      | (_, index, bit) :: rest' =>
        let x1 := x0 + word_len
        let nline :=
          match bit with
          | TextBit.char c => decide (c = '\n')
          | _ => false
        (nl, index, bit) :: wordsGo wc ts width fuel x1 nline ind rest'
    | (index0, bit0) :: wrest =>
      let x1 :=
        match bit0 with
        | TextBit.char c => x0 + len_from c x0 ts
        | TextBit.tag _ => x0
      let dr := drainWord ts width ind x1 wrest
      ((nl, index0, bit0) :: dr.1) ++ wordsGo wc ts width fuel dr.2 false ind rest

/-- `words` (src/parsec-term/src/label.rs); the width is a `u16` in the
source, hence the truncation. -/
def words (l : List (Nat × Nat × TextBit)) (width : Nat) (cfg : PrintCfg) :
    List (Option Nat × Nat × TextBit) :=
  wordsGo cfg.word_chars cfg.tab_stops (width % 2 ^ 16) (l.length + 1) 0 true 0 l

/-- `Label::get_width` (src/parsec-term/src/label.rs): fold the measured
widths of the items before `max_index`, resetting to the indent at wrap
markers when `wrap_around`.  The source's match is inverted — `Word` measures
through `bits` and every other method through `words` — and is embedded as
written. -/
def get_width (l : List (Nat × TextBit)) (cfg : PrintCfg) (areaWidth : Nat)
    (max_index : Nat) (wrap_around : Bool) : Nat :=
  let width := cfg.wrap_method.wrapping_cap areaWidth
  let ind := indents l cfg.tab_stops width
  let fold_fn := fun (w : Nat) (item : Option Nat × Nat × TextBit) =>
    let w1 :=
      match wrap_around, item.1 with
      | true, some i => i
      | _, _ => w
    match item.2.2 with
    | TextBit.char c => w1 + len_from c w1 cfg.tab_stops
    | _ => w1
  match cfg.wrap_method with
  | WrapMethod.Word =>
    ((bits ind width cfg.tab_stops cfg.wrap_method.is_no_wrap).takeWhile
      fun item => item.2.1 < max_index).foldl fold_fn 0
  | _ =>
    ((words ind width cfg).takeWhile fun item => item.2.1 < max_index).foldl fold_fn 0

/-- `PrintInfo` (src/parsec-term/src/label.rs). -/
structure PrintInfo where
  first_char : Nat
  x_shift : Nat
  last_main : Position.Pos
deriving DecidableEq

/-- `Text::iter_line` (src/parsec-core/src/text/mod.rs) for a tagless text:
the characters of a line with their global indices; `none` models the
`line_to_char` panic on a line past the end. -/
def iter_line (text : List Char) (line : Nat) : Option (List (Nat × TextBit)) :=
  (Position.lineToChar text line).bind fun s =>
    (Position.lineToChar text (line + 1)).map fun e =>
      ((text.drop s).take (e - s)).enum.map fun p => (s + p.1, TextBit.char p.2)

/-- The body of `scroll_hor_to_gap` after `max_x_shift` is known: the
target-distance comparisons against the gap window (the source's
`target_dist`, `max_dist` and `min_dist` locals are inlined). -/
def scrollHorBody (info : PrintInfo) (pos : Position.Pos) (text : List Char)
    (areaWidth : Nat) (cfg : PrintCfg) (max_x_shift : Nat) : Option PrintInfo :=
  (iter_line text pos.row).bind fun line =>
    if get_width line cfg areaWidth pos.ch true < info.x_shift + cfg.scrolloff.x_gap then
      some { info with
        x_shift := min
          (info.x_shift -
            (info.x_shift + cfg.scrolloff.x_gap - get_width line cfg areaWidth pos.ch true))
          max_x_shift }
    else
      if info.x_shift + (areaWidth - (cfg.scrolloff.x_gap + 1)) <
          get_width line cfg areaWidth pos.ch true then
        (iter_line text pos.row).map fun line2 =>
          if get_width line2 cfg areaWidth usizeMax false < areaWidth then info
          else
            { info with
              x_shift := min
                (get_width line cfg areaWidth pos.ch true -
                  (areaWidth - (cfg.scrolloff.x_gap + 1)))
                max_x_shift }
      else some { info with x_shift := min info.x_shift max_x_shift }

/-- `PrintInfo::scroll_hor_to_gap` (src/parsec-term/src/label.rs): only
`NoWrap` and `Capped` (with the cap past the width) scroll; the caret's
visual distance is pulled back under `x_shift + x_gap` or pushed past
`x_shift + W - x_gap - 1`, except that a line that fits on the label leaves
`x_shift` untouched (the early return); outside the early returns, `x_shift`
is clamped to `max_x_shift`. -/
def scroll_hor_to_gap (info : PrintInfo) (pos : Position.Pos) (text : List Char)
    (areaWidth : Nat) (cfg : PrintCfg) : Option PrintInfo :=
  match cfg.wrap_method with
  | WrapMethod.Width => some info
  | WrapMethod.Word => some info
  | WrapMethod.Capped cap =>
    if cap > areaWidth then
      scrollHorBody info pos text areaWidth cfg (cap - areaWidth)
    else some info
  | WrapMethod.NoWrap => scrollHorBody info pos text areaWidth cfg usizeMax


/-- The print configuration of the C6 scenarios: `NoWrap`, tab stops of 4,
scrolloff gaps of 3, and the default word characters. -/
def c6Cfg : PrintCfg :=
  ⟨WrapMethod.NoWrap, true, TabStops.Regular 4, NewLine.Blank, ⟨3, 3⟩,
    [('A', 'Z'), ('a', 'z'), ('_', '_')]⟩

/-- C6 counterexample: a single line of nine characters on a label of width
10 with `x_gap = 3`, caret at character 8 with visual distance 8 and
`x_shift = 0`.  The whole line fits on the label, so `scroll_hor_to_gap`
returns early and leaves `x_shift = 0`, violating the claimed upper bound
`d ≤ x_shift + W - x_gap - 1 = 6` even though `x_shift = 2` would satisfy
both bounds. -/
theorem c6_counterexample :
    scroll_hor_to_gap ⟨0, 0, ⟨0, 0, 0, 0⟩⟩ ⟨8, 8, 8, 0⟩ "aaaaaaaaa".toList 10 c6Cfg =
        some ⟨0, 0, ⟨0, 0, 0, 0⟩⟩ ∧
      (iter_line "aaaaaaaaa".toList 0).map (fun l => get_width l c6Cfg 10 8 true) =
        some 8 ∧
      ¬(0 + 3 ≤ 8 ∧ 8 ≤ 0 + 10 - 3 - 1) ∧
      (2 + 3 ≤ 8 ∧ 8 ≤ 2 + 10 - 3 - 1) := by
  refine ⟨by decide, by decide, by decide, by decide⟩

/-- C6 (amended): horizontal scroll-to-gap runs only under `NoWrap` or
`Capped` (with the cap past the width).  Under `NoWrap`, when the label is
wide enough for both gaps (`W ≥ 2·x_gap + 1`), the caret's visual distance
`d` from its line start is at least `x_gap` (so a nonnegative `x_shift` can
satisfy the lower bound), and — whenever `d` exceeds the upper bound — the
line's full visual width is at least the label width (the early return for a
fitting line does not fire), the adjusted shift satisfies
`x_shift + x_gap ≤ d ≤ x_shift + W - x_gap - 1`. -/
theorem c6_scroll_keeps_caret_in_gap (info info2 : PrintInfo) (pos : Position.Pos)
    (text : List Char) (W gap d F : Nat) (cfg : PrintCfg) (line : List (Nat × TextBit))
    (hnw : cfg.wrap_method = WrapMethod.NoWrap)
    (hgap : cfg.scrolloff.x_gap = gap)
    (hline : iter_line text pos.row = some line)
    (hd : get_width line cfg W pos.ch true = d)
    (hF : get_width line cfg W usizeMax false = F)
    (hW : 2 * gap + 1 ≤ W)
    (hdg : gap ≤ d)
    (hfull : info.x_shift + (W - (gap + 1)) < d → W ≤ F)
    (hxm : info.x_shift ≤ usizeMax)
    (hdm : d ≤ usizeMax)
    (hrun : scroll_hor_to_gap info pos text W cfg = some info2) :
    info2.x_shift + gap ≤ d ∧ d ≤ info2.x_shift + (W - gap - 1) := by
  simp only [scroll_hor_to_gap, hnw] at hrun
  unfold scrollHorBody at hrun
  rw [hline] at hrun
  rw [Option.some_bind] at hrun
  rw [hgap, hd, Option.map_some', hF] at hrun
  by_cases h1 : d < info.x_shift + gap
  · rw [if_pos h1] at hrun
    have hi := Option.some.inj hrun
    rw [← hi]
    dsimp only
    omega
  · rw [if_neg h1] at hrun
    by_cases h2 : info.x_shift + (W - (gap + 1)) < d
    · rw [if_pos h2] at hrun
      have hWF := hfull h2
      rw [if_neg (by omega)] at hrun
      have hi := Option.some.inj hrun
      rw [← hi]
      dsimp only
      omega
    · rw [if_neg h2] at hrun
      have hi := Option.some.inj hrun
      rw [← hi]
      dsimp only
      omega

/-- A line of twenty characters, longer than the label. -/
def c6LongText : List Char := List.replicate 20 'a'

/-- Witness for C6: on the twenty-character line with caret distance 8 the
shift becomes 2 and the caret sits inside the gap window `[5, 8]`. -/
theorem c6_scroll_keeps_caret_in_gap_witness :
    scroll_hor_to_gap ⟨0, 0, ⟨0, 0, 0, 0⟩⟩ ⟨8, 8, 8, 0⟩ c6LongText 10 c6Cfg =
        some ⟨0, 2, ⟨0, 0, 0, 0⟩⟩ ∧
      2 + 3 ≤ 8 ∧ 8 ≤ 2 + (10 - 3 - 1) := by
  have hrun : scroll_hor_to_gap ⟨0, 0, ⟨0, 0, 0, 0⟩⟩ ⟨8, 8, 8, 0⟩ c6LongText 10 c6Cfg =
      some ⟨0, 2, ⟨0, 0, 0, 0⟩⟩ := by decide
  refine ⟨hrun, ?_⟩
  cases hline : iter_line c6LongText 0 with
  | none => exact absurd hline (by decide)
  | some line =>
    have hdm : (iter_line c6LongText 0).map (fun l => get_width l c6Cfg 10 8 true) =
        some 8 := by decide
    have hFm : (iter_line c6LongText 0).map (fun l => get_width l c6Cfg 10 usizeMax false) =
        some 20 := by decide
    rw [hline, Option.map_some'] at hdm hFm
    have h := c6_scroll_keeps_caret_in_gap ⟨0, 0, ⟨0, 0, 0, 0⟩⟩ ⟨0, 2, ⟨0, 0, 0, 0⟩⟩
      ⟨8, 8, 8, 0⟩ c6LongText 10 3 8 20 c6Cfg line rfl rfl hline
      (Option.some.inj hdm) (Option.some.inj hFm) (by decide) (by decide)
      (fun _ => by decide) (by decide) (by decide) hrun
    exact h

end Label

end Parsec
